import Mathlib

/-!
Verification of the throne-tracker / allow-list core of SuSU-Ultra.

The repository ships the interface header `kernel/throne_tracker.h`; the
header is embedded literally below (`throneTrackerHeader`).  The behaviour
of the operations (`track_throne`, `ksu_update_uid_list`, reconciliation,
query) is not present in the sources, so it is modelled from the
specification, as noted on each definition.
-/

/-- Return / parameter types appearing in `kernel/throne_tracker.h`. -/
inductive CType
  | void
  | int
  | uidListDataPtr
deriving DecidableEq, Repr

/-- One C declaration of the header: name, return type, parameter types. -/
structure CDecl where
  name : String
  ret : CType
  params : List CType
deriving DecidableEq, Repr

/-- The declarations of `kernel/throne_tracker.h`, in source order:
`void ksu_throne_tracker_init(void);`, `void ksu_throne_tracker_exit(void);`,
`void track_throne(void);`, `int ksu_update_uid_list(struct uid_list_data *);`. -/
def throneTrackerHeader : List CDecl :=
  [ ⟨"ksu_throne_tracker_init", CType.void, []⟩,
    ⟨"ksu_throne_tracker_exit", CType.void, []⟩,
    ⟨"track_throne", CType.void, []⟩,
    ⟨"ksu_update_uid_list", CType.int, [CType.uidListDataPtr]⟩ ]

/-- Modelled from the spec: the validity flag of `ThroneState`
(the implementation of the tracker state machine is not in the sources). -/
inductive Validity
  | unvalidated
  | valid
  | revoked
deriving DecidableEq, Repr

/-- Modelled from the spec: the singleton record of who currently holds
manager authority (holder UID, holder PID, identity fingerprint, validity
flag, last-validated timestamp). -/
structure ThroneState where
  holderUid : Nat
  holderPid : Nat
  fingerprint : Nat
  validity : Validity
  lastValidated : Nat
deriving DecidableEq, Repr

/-- Modelled from the spec: one allow-list record — UID, authorization flag,
the throne fingerprint under which it was granted, a suspect flag set by
reconciliation, and whether the grant is a persisted/standing grant rather
than a process-scoped one. -/
structure UidEntry where
  uid : Nat
  allow : Bool
  grantFp : Nat
  suspect : Bool
  persist : Bool
deriving DecidableEq, Repr

/-- Modelled from the spec: the allow list, a mapping of UID to `UidEntry`
with unique keys, represented as a list of entries. -/
abbrev AllowList := List UidEntry

/-- Modelled from the spec: a read-only snapshot view of one live process at
scan time — PID, UID, executable identity fingerprint. -/
structure ProcessRecord where
  pid : Nat
  uid : Nat
  fingerprint : Nat
deriving DecidableEq, Repr

/-- Modelled from the spec: the shared mutable state — the `ThroneState`
singleton and the `AllowList` owned by the allow-list manager. -/
structure System where
  throne : ThroneState
  list : AllowList
deriving DecidableEq, Repr

/-- Modelled from the spec: the verified manager candidates of one scan —
the processes of the snapshot matching the manager predicate whose identity
verification succeeds, paired with the verified fingerprint. -/
def verifiedCandidates (isManager : ProcessRecord → Bool)
    (verify : ProcessRecord → Option Nat)
    (snap : List ProcessRecord) : List (ProcessRecord × Nat) :=
  snap.filterMap fun p =>
    if isManager p then (verify p).map fun f => (p, f) else none

/-- Modelled from the spec: the tie-break policy of `scan` / `track_throne`.
A candidate matching the previous valid holder (same PID and fingerprint)
wins (incumbency); otherwise the lowest PID among candidates carrying the
previous fingerprint; otherwise the lowest PID among all verified
candidates, whose fingerprint becomes authoritative. -/
def chooseHolder (prev : ThroneState) (cands : List (ProcessRecord × Nat)) :
    Option (ProcessRecord × Nat) :=
  if prev.validity = Validity.valid then
    match cands.find? fun c =>
        c.1.pid == prev.holderPid && c.2 == prev.fingerprint with
    | some c => some c
    | none =>
      match (cands.filter fun c => c.2 == prev.fingerprint).argmin
          fun c => c.1.pid with
      | some c => some c
      | none => cands.argmin fun c => c.1.pid
  else cands.argmin fun c => c.1.pid

/-- Modelled from the spec: `scan` (`track_throne`, whose implementation is
not in the sources).  With zero verified candidates the state transitions to
`revoked`; otherwise the chosen holder's UID/PID/fingerprint are recorded
with validity `valid` and a fresh timestamp. -/
def scan (isManager : ProcessRecord → Bool) (verify : ProcessRecord → Option Nat)
    (snap : List ProcessRecord) (now : Nat) (prev : ThroneState) : ThroneState :=
  match chooseHolder prev (verifiedCandidates isManager verify snap) with
  | none => { prev with validity := Validity.revoked }
  | some (p, f) =>
    { holderUid := p.uid, holderPid := p.pid, fingerprint := f,
      validity := Validity.valid, lastValidated := now }

/-- Modelled from the spec: a grant / revoke action of an update batch. -/
inductive UpdateAction
  | grant
  | revoke
deriving DecidableEq, Repr

/-- Modelled from the spec: one entry of an `apply_update` batch. -/
structure UpdateEntry where
  uid : Nat
  action : UpdateAction
deriving DecidableEq, Repr

/-- Modelled from the spec: the error taxonomy of `apply_update`
(`ksu_update_uid_list`, whose implementation is not in the sources). -/
inductive UpdateError
  | Unauthorized
  | MalformedEntry
deriving DecidableEq, Repr

/-- Modelled from the spec: the valid UID range (the spec leaves the bound
to configuration; 32-bit UIDs are assumed). -/
def uidInRange (u : Nat) : Bool :=
  u < 4294967296

/-- Does the batch grant UID `u`? -/
def grantsB (batch : List UpdateEntry) (u : Nat) : Bool :=
  batch.any fun e => e.uid == u && e.action == UpdateAction.grant

/-- Does the batch revoke UID `u`? -/
def revokesB (batch : List UpdateEntry) (u : Nat) : Bool :=
  batch.any fun e => e.uid == u && e.action == UpdateAction.revoke

/-- Modelled from the spec: a batch is conflict-free when no UID appears
with both a grant and a revoke in it. -/
def conflictFreeB (batch : List UpdateEntry) : Bool :=
  batch.all fun e1 => batch.all fun e2 =>
    e1.uid != e2.uid || e1.action == e2.action

/-- Modelled from the spec: a well-formed batch has every UID in range and
no grant/revoke conflict. -/
def batchWellFormed (batch : List UpdateEntry) : Bool :=
  (batch.all fun e => uidInRange e.uid) && conflictFreeB batch

/-- Modelled from the spec: granting UID `u` — refresh every existing entry
for `u` (stamping the current throne fingerprint, clearing the suspect
flag), or append a fresh process-scoped entry when none exists. -/
def upsertGrant (fp : Nat) (u : Nat) (l : AllowList) : AllowList :=
  if l.any fun e => e.uid == u then
    l.map fun e =>
      if e.uid == u then
        { uid := e.uid, allow := true, grantFp := fp,
          suspect := false, persist := e.persist }
      else e
  else
    l ++ [{ uid := u, allow := true, grantFp := fp,
            suspect := false, persist := false }]

/-- Modelled from the spec: applying one batch entry to the list. -/
def applyOne (fp : Nat) (l : AllowList) (e : UpdateEntry) : AllowList :=
  match e.action with
  | UpdateAction.grant => upsertGrant fp e.uid l
  | UpdateAction.revoke => l.filter fun x => x.uid != e.uid

/-- Modelled from the spec: applying a whole batch in order. -/
def applyEntries (fp : Nat) (batch : List UpdateEntry) (l : AllowList) : AllowList :=
  batch.foldl (applyOne fp) l

/-- Modelled from the spec: `apply_update` (`ksu_update_uid_list`, whose
implementation is not in the sources).  Authorization is checked first
(valid throne and matching claimed fingerprint), then batch well-formedness;
on success the batch is applied and the resulting list size returned. -/
def apply_update (claimedFp : Nat) (batch : List UpdateEntry)
    (th : ThroneState) (l : AllowList) :
    Except UpdateError (AllowList × Nat) :=
  if th.validity = Validity.valid ∧ claimedFp = th.fingerprint then
    if batchWellFormed batch then
      Except.ok (applyEntries th.fingerprint batch l,
                 (applyEntries th.fingerprint batch l).length)
    else
      Except.error UpdateError.MalformedEntry
  else
    Except.error UpdateError.Unauthorized

/-- Modelled from the spec: `apply_update` at the system level — on any
failure the prior committed state stays authoritative (no partial writes). -/
def applyUpdateStep (claimedFp : Nat) (batch : List UpdateEntry)
    (s : System) : Except UpdateError Nat × System :=
  match apply_update claimedFp batch s.throne s.list with
  | Except.error e => (Except.error e, s)
  | Except.ok (l2, n) => (Except.ok n, { s with list := l2 })

/-- Modelled from the spec: reconciliation of one entry against the process
table.  An entry whose UID has no live process is kept only when persisted;
an entry whose UID belongs to a live process with a different fingerprint is
flagged suspect (never silently re-trusted). -/
def reconcileEntry (snap : List ProcessRecord) (e : UidEntry) : Option UidEntry :=
  match snap.find? fun p => p.uid == e.uid with
  | some p =>
    if p.fingerprint == e.grantFp then some e
    else some { e with suspect := true }
  | none => if e.persist then some e else none

/-- Modelled from the spec: `reconcile` over the whole allow list. -/
def reconcile (snap : List ProcessRecord) (l : AllowList) : AllowList :=
  l.filterMap (reconcileEntry snap)

/-- Modelled from the spec: `reconcile` at the system level. -/
def reconcileStep (snap : List ProcessRecord) (s : System) : System :=
  { s with list := reconcile snap s.list }

/-- Modelled from the spec: `query(uid)` — deny-by-default whenever the
throne is not valid; otherwise authorized exactly when a non-suspect
entry with the authorization flag exists for the UID. -/
def queryFn (th : ThroneState) (l : AllowList) (u : Nat) : Bool :=
  if th.validity = Validity.valid then
    match l.find? fun e => e.uid == u with
    | some e => e.allow && !e.suspect
    | none => false
  else false

/-- Modelled from the spec: `query` at the system level — read-only. -/
def queryStep (s : System) (u : Nat) : Bool × System :=
  (queryFn s.throne s.list u, s)

/-- The net grant/revoke count of a batch read literally: number of grant
entries minus number of revoke entries. -/
def netCount (batch : List UpdateEntry) : Int :=
  ((batch.filter fun e => e.action == UpdateAction.grant).length : Int) -
    ((batch.filter fun e => e.action == UpdateAction.revoke).length : Int)

/-- UIDs granted somewhere in the batch, as a finite set. -/
def grantedUids (batch : List UpdateEntry) : Finset Nat :=
  ((batch.filter fun e => e.action == UpdateAction.grant).map fun e => e.uid).toFinset

/-- UIDs revoked somewhere in the batch, as a finite set. -/
def revokedUids (batch : List UpdateEntry) : Finset Nat :=
  ((batch.filter fun e => e.action == UpdateAction.revoke).map fun e => e.uid).toFinset

/-- The UIDs keyed by an allow list, as a finite set. -/
def uidFinset (l : AllowList) : Finset Nat :=
  (l.map fun e => e.uid).toFinset

/-- Does the list hold an entry for UID `u`? -/
def hasUid (l : AllowList) (u : Nat) : Bool :=
  l.any fun e => e.uid == u

/-- Sample predicate accepting every process as a manager candidate. -/
def isMgrAll : ProcessRecord → Bool := fun _ => true

/-- Sample verifier that fails on every process. -/
def verifyNone : ProcessRecord → Option Nat := fun _ => none

/-- Sample verifier returning the snapshot fingerprint unchanged. -/
def verifyId : ProcessRecord → Option Nat := fun p => some p.fingerprint

/-- Sample initial throne state. -/
def prevUnval : ThroneState := ⟨0, 0, 0, Validity.unvalidated, 0⟩

/-- Sample system with a revoked throne and one cached allowing entry. -/
def sysRevokedCached : System :=
  ⟨⟨1000, 500, 7, Validity.revoked, 3⟩, [⟨4000, true, 7, false, false⟩]⟩

/-- With no candidates the tie-break yields no holder. -/
theorem chooseHolder_nil (prev : ThroneState) : chooseHolder prev [] = none := by
  unfold chooseHolder
  split <;> simp [List.argmin_nil]

/-- Claim C9 counterexample: the header declares four operations, not five,
and none of them is a query operation. -/
theorem header_no_query_counterexample :
    (¬ ∃ d ∈ throneTrackerHeader, d.name = "query")
    ∧ throneTrackerHeader.length = 4 := by
  decide

/-- Claim C9 (amended): the exposed surface of `kernel/throne_tracker.h` is
exactly the four operations `ksu_throne_tracker_init`,
`ksu_throne_tracker_exit`, `track_throne` and `ksu_update_uid_list`; no
`query(uid)` operation is declared there. -/
theorem header_surface_exactly_four :
    throneTrackerHeader.map CDecl.name
      = ["ksu_throne_tracker_init", "ksu_throne_tracker_exit",
         "track_throne", "ksu_update_uid_list"]
    ∧ ¬ ∃ d ∈ throneTrackerHeader, d.name = "query" := by
  decide

/-- Claim C10: `ksu_throne_tracker_init`, `ksu_throne_tracker_exit` and
`track_throne` all return void and take no parameters, so a scan reports no
result or error through its return value; `ksu_update_uid_list` is the only
declaration of the header with a result channel (an int return). -/
theorem header_result_channels :
    (throneTrackerHeader.all fun d =>
        d.name == "ksu_update_uid_list"
          || (d.ret == CType.void && d.params.isEmpty)) = true
    ∧ (throneTrackerHeader.filter fun d => d.ret != CType.void).map CDecl.name
        = ["ksu_update_uid_list"]
    ∧ (throneTrackerHeader.filter fun d => !d.params.isEmpty).map CDecl.name
        = ["ksu_update_uid_list"] := by
  decide

/-- Claim C1: a scan that finds zero verifiable manager candidates drives
ThroneState to `revoked`, and any `apply_update` call made on a system
whose ThroneState is revoked fails with `Unauthorized` and leaves the
system — in particular the AllowList — unchanged byte-for-byte. -/
theorem scan_empty_revokes_blocks_update
    (isManager : ProcessRecord → Bool) (verify : ProcessRecord → Option Nat)
    (snap : List ProcessRecord) (now : Nat) (prev : ThroneState)
    (h : verifiedCandidates isManager verify snap = []) :
    (scan isManager verify snap now prev).validity = Validity.revoked
    ∧ ∀ (s : System) (fp : Nat) (batch : List UpdateEntry),
        s.throne.validity = Validity.revoked →
        applyUpdateStep fp batch s = (Except.error UpdateError.Unauthorized, s) := by
  constructor
  · unfold scan
    rw [h, chooseHolder_nil]
  · intro s fp batch hs
    unfold applyUpdateStep apply_update
    rw [hs]
    simp

/-- Witness for C1 at a concrete snapshot on which no candidate verifies. -/
theorem scan_empty_revokes_blocks_update_witness :
    (scan isMgrAll verifyNone [⟨300, 2000, 5⟩] 1 prevUnval).validity
        = Validity.revoked
    ∧ applyUpdateStep 9 [⟨4000, UpdateAction.grant⟩]
          ⟨⟨0, 0, 0, Validity.revoked, 0⟩, []⟩
        = (Except.error UpdateError.Unauthorized,
           ⟨⟨0, 0, 0, Validity.revoked, 0⟩, []⟩) :=
  ⟨(scan_empty_revokes_blocks_update isMgrAll verifyNone [⟨300, 2000, 5⟩] 1
      prevUnval (by decide)).1,
   (scan_empty_revokes_blocks_update isMgrAll verifyNone [⟨300, 2000, 5⟩] 1
      prevUnval (by decide)).2
     ⟨⟨0, 0, 0, Validity.revoked, 0⟩, []⟩ 9 [⟨4000, UpdateAction.grant⟩] rfl⟩

/-- Reconciling an already-reconciled entry changes nothing further. -/
theorem reconcileEntry_idem (snap : List ProcessRecord) (e e2 : UidEntry)
    (h : reconcileEntry snap e = some e2) :
    reconcileEntry snap e2 = some e2 := by
  cases hf : snap.find? (fun p => p.uid == e.uid) with
  | none =>
    by_cases hp : e.persist = true
    · have he : reconcileEntry snap e = some e := by
        unfold reconcileEntry
        rw [hf]
        simp [hp]
      rw [he] at h
      injection h with h2
      subst h2
      exact he
    · have he : reconcileEntry snap e = none := by
        unfold reconcileEntry
        rw [hf]
        simp [hp]
      rw [he] at h
      simp at h
  | some p =>
    by_cases hfp : (p.fingerprint == e.grantFp) = true
    · have he : reconcileEntry snap e = some e := by
        unfold reconcileEntry
        rw [hf]
        simp [hfp]
      rw [he] at h
      injection h with h2
      subst h2
      exact he
    · have he : reconcileEntry snap e = some { e with suspect := true } := by
        unfold reconcileEntry
        rw [hf]
        simp [hfp]
      rw [he] at h
      injection h with h2
      subst h2
      unfold reconcileEntry
      have hf2 : snap.find?
          (fun p => p.uid == ({ e with suspect := true } : UidEntry).uid) = some p := by
        simpa using hf
      rw [hf2]
      simp [hfp]

/-- Claim C4: reconcile is idempotent — for every allow list and every
process-table snapshot, a second reconcile with the same snapshot leaves
the list exactly as the first one did. -/
theorem reconcile_idempotent (snap : List ProcessRecord) (l : AllowList) :
    reconcile snap (reconcile snap l) = reconcile snap l := by
  induction l with
  | nil => rfl
  | cons e t ih =>
    unfold reconcile at ih ⊢
    simp only [List.filterMap_cons]
    cases hre : reconcileEntry snap e with
    | none => simpa using ih
    | some e2 =>
      simp only [List.filterMap_cons, reconcileEntry_idem snap e e2 hre]
      rw [ih]

/-- Claim C8: `query` is read-only (it returns the system unchanged), has no
precondition, and whenever ThroneState is not valid it returns deny for
every UID regardless of cached entries. -/
theorem query_readonly_denies_when_invalid (s : System) (u : Nat) :
    (queryStep s u).2 = s
    ∧ (s.throne.validity ≠ Validity.valid → (queryStep s u).1 = false) := by
  refine ⟨rfl, ?_⟩
  intro h
  unfold queryStep queryFn
  simp [h]

/-- Witness for C8 on a revoked system holding a cached allowing entry. -/
theorem query_readonly_denies_when_invalid_witness :
    (queryStep sysRevokedCached 4000).2 = sysRevokedCached
    ∧ (queryStep sysRevokedCached 4000).1 = false :=
  ⟨(query_readonly_denies_when_invalid sysRevokedCached 4000).1,
   (query_readonly_denies_when_invalid sysRevokedCached 4000).2 (by decide)⟩

/-- An entry is stamped for fingerprint `fp` when it is allowing,
non-suspect, and was granted under `fp`. -/
def stamped (fp : Nat) (e : UidEntry) : Prop :=
  e.grantFp = fp ∧ e.allow = true ∧ e.suspect = false

/-- Membership after `upsertGrant`: an entry either was already in the list
or is the (re)stamped entry for the granted UID. -/
theorem mem_upsertGrant (fp v : Nat) (l : AllowList) (x : UidEntry)
    (hx : x ∈ upsertGrant fp v l) :
    x ∈ l ∨ (x.uid = v ∧ stamped fp x) := by
  unfold upsertGrant at hx
  by_cases hany : (l.any fun e => e.uid == v) = true
  · rw [if_pos hany] at hx
    obtain ⟨y, hy, hgy⟩ := List.mem_map.mp hx
    by_cases hyv : (y.uid == v) = true
    · rw [if_pos hyv] at hgy
      subst hgy
      exact Or.inr ⟨by simpa using hyv, rfl, rfl, rfl⟩
    · rw [if_neg hyv] at hgy
      subst hgy
      exact Or.inl hy
  · rw [if_neg hany] at hx
    rcases List.mem_append.mp hx with hxl | hxr
    · exact Or.inl hxl
    · have hxx : x = { uid := v, allow := true, grantFp := fp,
                       suspect := false, persist := false } := by simpa using hxr
      subst hxx
      exact Or.inr ⟨rfl, rfl, rfl, rfl⟩

/-- Every entry for `u` produced by `upsertGrant fp u` is stamped. -/
theorem upsertGrant_stamps (fp u : Nat) (l : AllowList) :
    ∀ x ∈ upsertGrant fp u l, x.uid = u → stamped fp x := by
  intro x hx hxu
  unfold upsertGrant at hx
  by_cases hany : (l.any fun e => e.uid == u) = true
  · rw [if_pos hany] at hx
    obtain ⟨y, hy, hgy⟩ := List.mem_map.mp hx
    by_cases hyu : (y.uid == u) = true
    · rw [if_pos hyu] at hgy
      subst hgy
      exact ⟨rfl, rfl, rfl⟩
    · rw [if_neg hyu] at hgy
      subst hgy
      exact absurd (beq_iff_eq.mpr hxu) hyu
  · rw [if_neg hany] at hx
    rcases List.mem_append.mp hx with hxl | hxr
    · have hc : (l.any fun e => e.uid == u) = true :=
        List.any_eq_true.mpr ⟨x, hxl, beq_iff_eq.mpr hxu⟩
      exact absurd hc hany
    · have hxx : x = { uid := u, allow := true, grantFp := fp,
                       suspect := false, persist := false } := by simpa using hxr
      subst hxx
      exact ⟨rfl, rfl, rfl⟩

/-- Applying one batch entry preserves "every entry for `u` is stamped". -/
theorem applyOne_stamp_preserved (fp u : Nat) (l : AllowList) (op : UpdateEntry)
    (hl : ∀ x ∈ l, x.uid = u → stamped fp x) :
    ∀ x ∈ applyOne fp l op, x.uid = u → stamped fp x := by
  intro x hx hxu
  obtain ⟨v, act⟩ := op
  cases act with
  | grant =>
    rcases mem_upsertGrant fp v l x hx with h | h
    · exact hl x h hxu
    · exact h.2
  | revoke =>
    exact hl x (List.mem_of_mem_filter hx) hxu

/-- Applying a batch preserves "every entry for `u` is stamped". -/
theorem applyEntries_stamp_preserved (fp u : Nat) :
    ∀ (batch : List UpdateEntry) (l : AllowList),
    (∀ x ∈ l, x.uid = u → stamped fp x) →
    ∀ x ∈ applyEntries fp batch l, x.uid = u → stamped fp x := by
  intro batch
  induction batch with
  | nil => intro l hl; simpa [applyEntries] using hl
  | cons op rest ih =>
    intro l hl
    exact ih (applyOne fp l op) (applyOne_stamp_preserved fp u l op hl)

/-- After applying a batch that grants `u`, every entry for `u` is stamped
with the fingerprint used for the application. -/
theorem applyEntries_stamps_grants (fp : Nat) :
    ∀ (batch : List UpdateEntry) (l : AllowList) (u : Nat),
    grantsB batch u = true →
    ∀ x ∈ applyEntries fp batch l, x.uid = u → stamped fp x := by
  intro batch
  induction batch with
  | nil => intro l u hg; simp [grantsB] at hg
  | cons op rest ih =>
    intro l u hg x hx hxu
    have hx2 : x ∈ applyEntries fp rest (applyOne fp l op) := hx
    by_cases hr : grantsB rest u = true
    · exact ih (applyOne fp l op) u hr x hx2 hxu
    · obtain ⟨v, act⟩ := op
      have hop : v = u ∧ act = UpdateAction.grant := by
        unfold grantsB at hg hr
        simp only [List.any_cons, Bool.or_eq_true, Bool.and_eq_true,
          beq_iff_eq] at hg
        rcases hg with ⟨h1, h2⟩ | hg
        · exact ⟨h1, h2⟩
        · exact absurd hg hr
      obtain ⟨h1, h2⟩ := hop
      subst h2
      rw [h1] at hx2
      exact applyEntries_stamp_preserved fp u rest (upsertGrant fp u l)
        (upsertGrant_stamps fp u l) x hx2 hxu

/-- Successful `apply_update` calls happen exactly under a valid throne, a
matching fingerprint and a well-formed batch, and return the applied list
with its length. -/
theorem apply_update_ok_inv (fp : Nat) (batch : List UpdateEntry)
    (th : ThroneState) (l l2 : AllowList) (n : Nat)
    (h : apply_update fp batch th l = Except.ok (l2, n)) :
    th.validity = Validity.valid ∧ fp = th.fingerprint
    ∧ batchWellFormed batch = true
    ∧ l2 = applyEntries th.fingerprint batch l ∧ n = l2.length := by
  unfold apply_update at h
  split at h
  next hcond =>
    split at h
    next hwf =>
      injection h with h2
      injection h2 with ha hb
      exact ⟨hcond.1, hcond.2, hwf, ha.symm, by rw [← ha]; exact hb.symm⟩
    next hwf => simp at h
  next hcond => simp at h

/-- Sample system with a revoked throne and a grant under fingerprint 1. -/
def sysUidReuse : System :=
  ⟨⟨1000, 500, 1, Validity.revoked, 3⟩, [⟨10050, true, 1, false, false⟩]⟩

/-- Claim C6 counterexample: an operation of the model — `reconcile` — does
modify a UidEntry (flags it suspect) while ThroneState is revoked, so the
invariant as stated does not hold of every operation. -/
theorem reconcile_modifies_while_revoked_counterexample :
    sysUidReuse.throne.validity ≠ Validity.valid
    ∧ reconcileStep [⟨7, 10050, 2⟩] sysUidReuse ≠ sysUidReuse
    ∧ (reconcileStep [⟨7, 10050, 2⟩] sysUidReuse).list
        = [⟨10050, true, 1, true, false⟩] := by
  decide

/-- Claim C6 (amended): the gated mutation path `apply_update` never creates
or modifies a UidEntry unless ThroneState.validity is valid (an unauthorized
call leaves the system untouched), and every entry it creates or refreshes
carries the fingerprint of the current ThroneState; `reconcile`, by design,
may still flag or purge entries when the throne is not valid. -/
theorem update_gated_and_stamps :
    (∀ (s : System) (fp : Nat) (batch : List UpdateEntry),
        s.throne.validity ≠ Validity.valid →
        applyUpdateStep fp batch s = (Except.error UpdateError.Unauthorized, s))
    ∧ ∀ (fp : Nat) (batch : List UpdateEntry) (th : ThroneState)
        (l l2 : AllowList) (n : Nat),
        apply_update fp batch th l = Except.ok (l2, n) →
        ∀ x ∈ l2, grantsB batch x.uid = true →
          x.grantFp = th.fingerprint ∧ x.allow = true ∧ x.suspect = false := by
  constructor
  · intro s fp batch hs
    unfold applyUpdateStep apply_update
    have : ¬ (s.throne.validity = Validity.valid ∧ fp = s.throne.fingerprint) := by
      intro hc
      exact hs hc.1
    rw [if_neg this]
  · intro fp batch th l l2 n h x hx hg
    obtain ⟨_, _, _, hl2, _⟩ := apply_update_ok_inv fp batch th l l2 n h
    exact applyEntries_stamps_grants th.fingerprint batch l x.uid hg x
      (hl2 ▸ hx) rfl

/-- Witness for C6 (amended): the unauthorized branch at a concrete revoked
system, and the stamping of a concrete successful grant. -/
theorem update_gated_and_stamps_witness :
    applyUpdateStep 9 [⟨4000, UpdateAction.grant⟩] sysUidReuse
      = (Except.error UpdateError.Unauthorized, sysUidReuse)
    ∧ ((⟨4000, true, 7, false, false⟩ : UidEntry).grantFp
          = (⟨1000, 500, 7, Validity.valid, 3⟩ : ThroneState).fingerprint
        ∧ (⟨4000, true, 7, false, false⟩ : UidEntry).allow = true
        ∧ (⟨4000, true, 7, false, false⟩ : UidEntry).suspect = false) :=
  ⟨update_gated_and_stamps.1 sysUidReuse 9 [⟨4000, UpdateAction.grant⟩]
      (by decide),
   update_gated_and_stamps.2 7 [⟨4000, UpdateAction.grant⟩]
      ⟨1000, 500, 7, Validity.valid, 3⟩ [] [⟨4000, true, 7, false, false⟩] 1
      rfl ⟨4000, true, 7, false, false⟩ (by decide) (by decide)⟩

/-- Claim C2 counterexample: a batch granting and revoking UID 4000 in the
same call, submitted while the throne is revoked, is rejected with
`Unauthorized`, not `MalformedEntry`. -/
theorem conflict_batch_unauthorized_counterexample :
    apply_update 1 [⟨4000, UpdateAction.grant⟩, ⟨4000, UpdateAction.revoke⟩]
        ⟨1000, 500, 1, Validity.revoked, 3⟩ []
      = Except.error UpdateError.Unauthorized
    ∧ (Except.error UpdateError.Unauthorized : Except UpdateError (AllowList × Nat))
        ≠ Except.error UpdateError.MalformedEntry := by
  constructor
  · rfl
  · intro h
    injection h with h2
    exact absurd h2 (by decide)

/-- Claim C2 (amended): an authorized `apply_update` batch (valid throne,
matching claimed fingerprint) containing a grant and a revoke for the same
UID, or a UID out of valid range, is rejected wholesale with
`MalformedEntry` and the system is unchanged — no entry of the batch is
applied.  (Authorization is checked first, so the same batch submitted
without a valid throne fails with `Unauthorized` instead.) -/
theorem malformed_batch_rejected_atomically
    (s : System) (fp : Nat) (batch : List UpdateEntry)
    (hv : s.throne.validity = Validity.valid)
    (hfp : fp = s.throne.fingerprint)
    (hbad : conflictFreeB batch = false
        ∨ (batch.all fun e => uidInRange e.uid) = false) :
    applyUpdateStep fp batch s = (Except.error UpdateError.MalformedEntry, s) := by
  have hwf : batchWellFormed batch = false := by
    unfold batchWellFormed
    rcases hbad with h | h <;> simp [h]
  unfold applyUpdateStep apply_update
  rw [if_pos ⟨hv, hfp⟩, hwf]
  simp

/-- Witness for C2 (amended): the conflicting batch for UID 4000 under a
valid throne is rejected with `MalformedEntry`, list untouched. -/
theorem malformed_batch_rejected_atomically_witness :
    applyUpdateStep 7 [⟨4000, UpdateAction.grant⟩, ⟨4000, UpdateAction.revoke⟩]
        ⟨⟨1000, 500, 7, Validity.valid, 3⟩, [⟨9999, true, 7, false, false⟩]⟩
      = (Except.error UpdateError.MalformedEntry,
         ⟨⟨1000, 500, 7, Validity.valid, 3⟩, [⟨9999, true, 7, false, false⟩]⟩) :=
  malformed_batch_rejected_atomically
    ⟨⟨1000, 500, 7, Validity.valid, 3⟩, [⟨9999, true, 7, false, false⟩]⟩
    7 [⟨4000, UpdateAction.grant⟩, ⟨4000, UpdateAction.revoke⟩]
    rfl rfl (Or.inl (by decide))

/-- A reconciled entry either survives unchanged or is its suspect-flagged
copy. -/
theorem reconcileEntry_some_inv (snap : List ProcessRecord) (e e2 : UidEntry)
    (h : reconcileEntry snap e = some e2) :
    e2 = e ∨ e2 = { e with suspect := true } := by
  cases hf : snap.find? (fun p => p.uid == e.uid) with
  | none =>
    by_cases hp : e.persist = true
    · have he : reconcileEntry snap e = some e := by
        unfold reconcileEntry
        rw [hf]
        simp [hp]
      rw [he] at h
      injection h with h2
      exact Or.inl h2.symm
    · have he : reconcileEntry snap e = none := by
        unfold reconcileEntry
        rw [hf]
        simp [hp]
      rw [he] at h
      simp at h
  | some p =>
    by_cases hfp : (p.fingerprint == e.grantFp) = true
    · have he : reconcileEntry snap e = some e := by
        unfold reconcileEntry
        rw [hf]
        simp [hfp]
      rw [he] at h
      injection h with h2
      exact Or.inl h2.symm
    · have he : reconcileEntry snap e = some { e with suspect := true } := by
        unfold reconcileEntry
        rw [hf]
        simp [hfp]
      rw [he] at h
      injection h with h2
      exact Or.inr h2.symm

/-- After reconciling against a snapshot in which the UID `u` is live only
under fingerprints differing from every cached grant for `u`, every
surviving entry for `u` carries the suspect flag. -/
theorem reconcile_flags_reused_uid (snap : List ProcessRecord) (l : AllowList)
    (u : Nat)
    (h1 : ∃ p ∈ snap, p.uid = u)
    (h2 : ∀ e ∈ l, e.uid = u → ∀ p ∈ snap, p.uid = u → p.fingerprint ≠ e.grantFp) :
    ∀ e2 ∈ reconcile snap l, e2.uid = u → e2.suspect = true := by
  intro e2 he2 hu
  obtain ⟨e, he, hre⟩ := List.mem_filterMap.mp he2
  have huid : e.uid = u := by
    rcases reconcileEntry_some_inv snap e e2 hre with h | h <;> rw [h] at hu
    · exact hu
    · simpa using hu
  obtain ⟨p0, hp0, hp0u⟩ := h1
  have hsome : (snap.find? fun p => p.uid == e.uid).isSome := by
    rw [List.find?_isSome]
    exact ⟨p0, hp0, by rw [huid]; exact beq_iff_eq.mpr hp0u⟩
  obtain ⟨p, hf⟩ := Option.isSome_iff_exists.mp hsome
  have hpmem : p ∈ snap := List.mem_of_find?_eq_some hf
  have hpu : p.uid = u := by
    have := List.find?_some hf
    rw [huid] at this
    exact beq_iff_eq.mp this
  have hne : p.fingerprint ≠ e.grantFp := h2 e he huid p hpmem hpu
  have hrec : reconcileEntry snap e = some { e with suspect := true } := by
    unfold reconcileEntry
    rw [hf]
    simp [hne]
  rw [hrec] at hre
  injection hre with h3
  rw [← h3]

/-- Under the hypotheses of `reconcile_flags_reused_uid`, `query` denies the
reused UID for any throne state. -/
theorem query_reused_uid_false (th : ThroneState) (snap : List ProcessRecord)
    (l : AllowList) (u : Nat)
    (h1 : ∃ p ∈ snap, p.uid = u)
    (h2 : ∀ e ∈ l, e.uid = u → ∀ p ∈ snap, p.uid = u → p.fingerprint ≠ e.grantFp) :
    queryFn th (reconcile snap l) u = false := by
  unfold queryFn
  by_cases hv : th.validity = Validity.valid
  · rw [if_pos hv]
    cases hfq : (reconcile snap l).find? (fun e => e.uid == u) with
    | none => rfl
    | some e2 =>
      have he2 : e2 ∈ reconcile snap l := List.mem_of_find?_eq_some hfq
      have hp := List.find?_some hfq
      have hu : e2.uid = u := beq_iff_eq.mp hp
      have hs := reconcile_flags_reused_uid snap l u h1 h2 e2 he2 hu
      simp [hs]
  · rw [if_neg hv]

/-- The refreshed/new entry for a granted UID is found first and is
allowing and non-suspect. -/
theorem find?_map_stamp (fp u : Nat) :
    ∀ l : AllowList, (l.any fun e => e.uid == u) = true →
    ∃ e2, (l.map fun e =>
        if e.uid == u then
          { uid := e.uid, allow := true, grantFp := fp,
            suspect := false, persist := e.persist }
        else e).find? (fun e => e.uid == u) = some e2
      ∧ e2.allow = true ∧ e2.suspect = false := by
  intro l
  induction l with
  | nil => intro h; simp at h
  | cons y t ih =>
    intro hany
    by_cases hyu : (y.uid == u) = true
    · refine ⟨{ uid := y.uid, allow := true, grantFp := fp,
                suspect := false, persist := y.persist }, ?_, rfl, rfl⟩
      simp only [List.map_cons]
      rw [if_pos hyu]
      exact List.find?_cons_of_pos _ hyu
    · simp only [List.map_cons]
      rw [if_neg hyu]
      rw [List.find?_cons_of_neg (p := fun e : UidEntry => e.uid == u) _ hyu]
      apply ih
      simp only [List.any_cons, Bool.or_eq_true] at hany
      rcases hany with h | h
      · exact absurd h hyu
      · exact h

/-- After `upsertGrant fp u`, the lookup for `u` finds an allowing,
non-suspect entry. -/
theorem find?_upsertGrant (fp u : Nat) (l : AllowList) :
    ∃ e2, (upsertGrant fp u l).find? (fun e => e.uid == u) = some e2
      ∧ e2.allow = true ∧ e2.suspect = false := by
  unfold upsertGrant
  by_cases hany : (l.any fun e => e.uid == u) = true
  · rw [if_pos hany]
    exact find?_map_stamp fp u l hany
  · rw [if_neg hany]
    refine ⟨{ uid := u, allow := true, grantFp := fp,
              suspect := false, persist := false }, ?_, rfl, rfl⟩
    rw [List.find?_append]
    have h1 : l.find? (fun e => e.uid == u) = none := by
      rw [List.find?_eq_none]
      intro x hx hxp
      exact hany (List.any_eq_true.mpr ⟨x, hx, hxp⟩)
    rw [h1]
    simp

/-- A query for `u` right after granting `u` under a valid throne succeeds. -/
theorem query_after_grant (th : ThroneState) (l : AllowList) (u fp : Nat)
    (hv : th.validity = Validity.valid) :
    queryFn th (upsertGrant fp u l) u = true := by
  unfold queryFn
  rw [if_pos hv]
  obtain ⟨e2, hfq, ha, hs⟩ := find?_upsertGrant fp u l
  rw [hfq]
  simp [ha, hs]

/-- Claim C7: when the UID of a cached grant has been reassigned to a live
process whose fingerprint differs from every cached grant fingerprint for
that UID, reconciliation marks the entry suspect rather than silently
honoring it, `query` on that UID returns unauthorized for any throne state,
and it returns authorized again once the UID is re-granted under the new
throne's fingerprint. -/
theorem uid_reuse_suspect_denied (snap : List ProcessRecord) (l : AllowList)
    (u : Nat) (th th2 : ThroneState)
    (h1 : ∃ p ∈ snap, p.uid = u)
    (h2 : ∀ e ∈ l, e.uid = u → ∀ p ∈ snap, p.uid = u → p.fingerprint ≠ e.grantFp) :
    (∀ e2 ∈ reconcile snap l, e2.uid = u → e2.suspect = true)
    ∧ queryFn th (reconcile snap l) u = false
    ∧ (th2.validity = Validity.valid →
        queryFn th2 (upsertGrant th2.fingerprint u (reconcile snap l)) u = true) :=
  ⟨reconcile_flags_reused_uid snap l u h1 h2,
   query_reused_uid_false th snap l u h1 h2,
   fun hv => query_after_grant th2 (reconcile snap l) u th2.fingerprint hv⟩

/-- Witness for C7 at the spec's scenario: UID 10050 granted under
fingerprint 1, reassigned to a live process with fingerprint 2. -/
theorem uid_reuse_suspect_denied_witness :
    queryFn ⟨10050, 7, 2, Validity.valid, 5⟩
        (reconcile [⟨7, 10050, 2⟩] [⟨10050, true, 1, false, false⟩]) 10050 = false
    ∧ queryFn ⟨10050, 7, 2, Validity.valid, 5⟩
        (upsertGrant 2 10050
          (reconcile [⟨7, 10050, 2⟩] [⟨10050, true, 1, false, false⟩])) 10050 = true :=
  ⟨(uid_reuse_suspect_denied [⟨7, 10050, 2⟩] [⟨10050, true, 1, false, false⟩]
      10050 ⟨10050, 7, 2, Validity.valid, 5⟩ ⟨10050, 7, 2, Validity.valid, 5⟩
      ⟨⟨7, 10050, 2⟩, by decide, rfl⟩ (by decide)).2.1,
   (uid_reuse_suspect_denied [⟨7, 10050, 2⟩] [⟨10050, true, 1, false, false⟩]
      10050 ⟨10050, 7, 2, Validity.valid, 5⟩ ⟨10050, 7, 2, Validity.valid, 5⟩
      ⟨⟨7, 10050, 2⟩, by decide, rfl⟩ (by decide)).2.2 rfl⟩

/-- When a holder is chosen, `scan` installs its PID/UID/fingerprint as the
new valid throne state. -/
theorem scan_some (isManager : ProcessRecord → Bool)
    (verify : ProcessRecord → Option Nat) (snap : List ProcessRecord)
    (now : Nat) (prev : ThroneState) (c : ProcessRecord × Nat)
    (h : chooseHolder prev (verifiedCandidates isManager verify snap) = some c) :
    scan isManager verify snap now prev =
      { holderUid := c.1.uid, holderPid := c.1.pid, fingerprint := c.2,
        validity := Validity.valid, lastValidated := now } := by
  obtain ⟨p, f⟩ := c
  unfold scan
  rw [h]

/-- Incumbency: a candidate with the previous holder's PID and fingerprint
is chosen. -/
theorem chooseHolder_incumbent (prev : ThroneState)
    (cands : List (ProcessRecord × Nat))
    (hv : prev.validity = Validity.valid)
    (hex : ∃ c ∈ cands, c.1.pid = prev.holderPid ∧ c.2 = prev.fingerprint) :
    ∃ c, chooseHolder prev cands = some c
      ∧ c.1.pid = prev.holderPid ∧ c.2 = prev.fingerprint := by
  have hsome : (cands.find? fun c =>
      c.1.pid == prev.holderPid && c.2 == prev.fingerprint).isSome := by
    rw [List.find?_isSome]
    obtain ⟨c, hc, h1, h2⟩ := hex
    exact ⟨c, hc, by simp [h1, h2]⟩
  obtain ⟨c0, hf⟩ := Option.isSome_iff_exists.mp hsome
  have hp := List.find?_some hf
  simp only [Bool.and_eq_true, beq_iff_eq] at hp
  refine ⟨c0, ?_, hp.1, hp.2⟩
  unfold chooseHolder
  rw [if_pos hv, hf]

/-- Fingerprint preference: with no incumbent candidate but some candidate
carrying the previous fingerprint, the lowest-PID one among those is
chosen. -/
theorem chooseHolder_fpmatch (prev : ThroneState)
    (cands : List (ProcessRecord × Nat))
    (hv : prev.validity = Validity.valid)
    (hni : ∀ c ∈ cands, ¬(c.1.pid = prev.holderPid ∧ c.2 = prev.fingerprint))
    (hexfp : ∃ c ∈ cands, c.2 = prev.fingerprint) :
    ∃ m, chooseHolder prev cands = some m ∧ m ∈ cands
      ∧ m.2 = prev.fingerprint
      ∧ ∀ c' ∈ cands, c'.2 = prev.fingerprint → m.1.pid ≤ c'.1.pid := by
  have hfn : (cands.find? fun c =>
      c.1.pid == prev.holderPid && c.2 == prev.fingerprint) = none := by
    rw [List.find?_eq_none]
    intro c hc hcp
    simp only [Bool.and_eq_true, beq_iff_eq] at hcp
    exact hni c hc hcp
  cases hm : (cands.filter fun c => c.2 == prev.fingerprint).argmin
      (fun c => c.1.pid) with
  | none =>
    obtain ⟨c, hc, h2⟩ := hexfp
    have hmem : c ∈ cands.filter fun c => c.2 == prev.fingerprint :=
      List.mem_filter.mpr ⟨hc, beq_iff_eq.mpr h2⟩
    rw [List.argmin_eq_none.mp hm] at hmem
    simp at hmem
  | some m =>
    have hmm : m ∈ (cands.filter fun c => c.2 == prev.fingerprint).argmin
        (fun c => c.1.pid) := Option.mem_def.mpr hm
    have hmmem := List.argmin_mem hmm
    refine ⟨m, ?_, (List.mem_filter.mp hmmem).1,
      beq_iff_eq.mp (List.mem_filter.mp hmmem).2, ?_⟩
    · unfold chooseHolder
      rw [if_pos hv, hfn, hm]
    · intro c' hc' h2'
      have hmemf : c' ∈ cands.filter fun c => c.2 == prev.fingerprint :=
        List.mem_filter.mpr ⟨hc', beq_iff_eq.mpr h2'⟩
      exact List.le_of_mem_argmin (f := fun c => c.1.pid) hmemf hmm

/-- Fresh choice: with no candidate carrying the previous fingerprint, the
lowest-PID verified candidate is chosen. -/
theorem chooseHolder_no_fpmatch (prev : ThroneState)
    (cands : List (ProcessRecord × Nat))
    (hall : ∀ c ∈ cands, c.2 ≠ prev.fingerprint)
    (hne : cands ≠ []) :
    ∃ m, chooseHolder prev cands = some m ∧ m ∈ cands
      ∧ ∀ c' ∈ cands, m.1.pid ≤ c'.1.pid := by
  cases hm : cands.argmin (fun c => c.1.pid) with
  | none => exact absurd (List.argmin_eq_none.mp hm) hne
  | some m =>
    have hmm : m ∈ cands.argmin (fun c => c.1.pid) := Option.mem_def.mpr hm
    refine ⟨m, ?_, List.argmin_mem hmm,
      fun c' hc' => List.le_of_mem_argmin (f := fun c => c.1.pid) hc' hmm⟩
    unfold chooseHolder
    by_cases hv : prev.validity = Validity.valid
    · rw [if_pos hv]
      have hfn : (cands.find? fun c =>
          c.1.pid == prev.holderPid && c.2 == prev.fingerprint) = none := by
        rw [List.find?_eq_none]
        intro c hc hcp
        simp only [Bool.and_eq_true, beq_iff_eq] at hcp
        exact hall c hc hcp.2
      have hflt : (cands.filter fun c => c.2 == prev.fingerprint) = [] := by
        rw [List.filter_eq_nil_iff]
        intro c hc
        simp only [beq_iff_eq]
        exact hall c hc
      rw [hfn, hflt, List.argmin_nil, hm]
    · rw [if_neg hv, hm]

/-- Claim C5: the scan tie-break.  (i) With the previous holder itself among
the verified candidates (same PID, same fingerprint), it is retained.
(ii) Without the incumbent but with candidates carrying the previous valid
fingerprint, the lowest-PID one of those becomes holder and the fingerprint
is kept.  (iii) With no candidate matching the previous fingerprint, the
lowest-PID verified candidate is chosen and its fingerprint becomes the
authoritative ThroneState fingerprint. -/
theorem scan_tiebreak (isManager : ProcessRecord → Bool)
    (verify : ProcessRecord → Option Nat) (snap : List ProcessRecord)
    (now : Nat) (prev : ThroneState) :
    (prev.validity = Validity.valid →
      (∃ c ∈ verifiedCandidates isManager verify snap,
          c.1.pid = prev.holderPid ∧ c.2 = prev.fingerprint) →
      (scan isManager verify snap now prev).holderPid = prev.holderPid
        ∧ (scan isManager verify snap now prev).fingerprint = prev.fingerprint)
    ∧ (prev.validity = Validity.valid →
      (∀ c ∈ verifiedCandidates isManager verify snap,
          ¬(c.1.pid = prev.holderPid ∧ c.2 = prev.fingerprint)) →
      (∃ c ∈ verifiedCandidates isManager verify snap, c.2 = prev.fingerprint) →
      (scan isManager verify snap now prev).fingerprint = prev.fingerprint
        ∧ ∃ c ∈ verifiedCandidates isManager verify snap,
            c.2 = prev.fingerprint
            ∧ (scan isManager verify snap now prev).holderPid = c.1.pid
            ∧ ∀ c' ∈ verifiedCandidates isManager verify snap,
                c'.2 = prev.fingerprint → c.1.pid ≤ c'.1.pid)
    ∧ ((∀ c ∈ verifiedCandidates isManager verify snap,
          c.2 ≠ prev.fingerprint) →
      verifiedCandidates isManager verify snap ≠ [] →
      ∃ c ∈ verifiedCandidates isManager verify snap,
        (scan isManager verify snap now prev).holderPid = c.1.pid
          ∧ (scan isManager verify snap now prev).fingerprint = c.2
          ∧ ∀ c' ∈ verifiedCandidates isManager verify snap,
              c.1.pid ≤ c'.1.pid) := by
  refine ⟨?_, ?_, ?_⟩
  · intro hv hex
    obtain ⟨c, hch, h1, h2⟩ :=
      chooseHolder_incumbent prev (verifiedCandidates isManager verify snap) hv hex
    rw [scan_some isManager verify snap now prev c hch]
    exact ⟨h1, h2⟩
  · intro hv hni hexfp
    obtain ⟨m, hch, hmem, hmf, hmin⟩ :=
      chooseHolder_fpmatch prev (verifiedCandidates isManager verify snap) hv hni hexfp
    rw [scan_some isManager verify snap now prev m hch]
    exact ⟨hmf, m, hmem, hmf, rfl, hmin⟩
  · intro hall hne
    obtain ⟨m, hch, hmem, hmin⟩ :=
      chooseHolder_no_fpmatch prev (verifiedCandidates isManager verify snap) hall hne
    rw [scan_some isManager verify snap now prev m hch]
    exact ⟨m, hmem, rfl, rfl, hmin⟩

/-- Witness for C5 at concrete scans: incumbency retains PID 500 over PID
900 with the same fingerprint; fingerprint preference applies without the
incumbent; and a fresh lowest-PID choice installs a new fingerprint. -/
theorem scan_tiebreak_witness :
    ((scan isMgrAll verifyId [⟨500, 1000, 7⟩, ⟨900, 1000, 7⟩] 4
        ⟨1000, 500, 7, Validity.valid, 0⟩).holderPid = 500
      ∧ (scan isMgrAll verifyId [⟨500, 1000, 7⟩, ⟨900, 1000, 7⟩] 4
        ⟨1000, 500, 7, Validity.valid, 0⟩).fingerprint = 7)
    ∧ ((scan isMgrAll verifyId [⟨900, 1000, 7⟩, ⟨500, 1000, 8⟩] 4
        ⟨1000, 444, 7, Validity.valid, 0⟩).fingerprint = 7
      ∧ ∃ c ∈ verifiedCandidates isMgrAll verifyId
            [⟨900, 1000, 7⟩, ⟨500, 1000, 8⟩],
          c.2 = 7
          ∧ (scan isMgrAll verifyId [⟨900, 1000, 7⟩, ⟨500, 1000, 8⟩] 4
              ⟨1000, 444, 7, Validity.valid, 0⟩).holderPid = c.1.pid
          ∧ ∀ c' ∈ verifiedCandidates isMgrAll verifyId
                [⟨900, 1000, 7⟩, ⟨500, 1000, 8⟩],
              c'.2 = 7 → c.1.pid ≤ c'.1.pid)
    ∧ ∃ c ∈ verifiedCandidates isMgrAll verifyId
          [⟨900, 1000, 9⟩, ⟨500, 1000, 8⟩],
        (scan isMgrAll verifyId [⟨900, 1000, 9⟩, ⟨500, 1000, 8⟩] 4
            prevUnval).holderPid = c.1.pid
          ∧ (scan isMgrAll verifyId [⟨900, 1000, 9⟩, ⟨500, 1000, 8⟩] 4
              prevUnval).fingerprint = c.2
          ∧ ∀ c' ∈ verifiedCandidates isMgrAll verifyId
                [⟨900, 1000, 9⟩, ⟨500, 1000, 8⟩],
              c.1.pid ≤ c'.1.pid :=
  ⟨(scan_tiebreak isMgrAll verifyId [⟨500, 1000, 7⟩, ⟨900, 1000, 7⟩] 4
      ⟨1000, 500, 7, Validity.valid, 0⟩).1 rfl (by decide),
   (scan_tiebreak isMgrAll verifyId [⟨900, 1000, 7⟩, ⟨500, 1000, 8⟩] 4
      ⟨1000, 444, 7, Validity.valid, 0⟩).2.1 rfl (by decide) (by decide),
   (scan_tiebreak isMgrAll verifyId [⟨900, 1000, 9⟩, ⟨500, 1000, 8⟩] 4
      prevUnval).2.2 (by decide) (by decide)⟩

/-- Conflict-freedom as a proposition over batch entries. -/
def ConflictFree (batch : List UpdateEntry) : Prop :=
  ∀ e1 ∈ batch, ∀ e2 ∈ batch, e1.uid = e2.uid → e1.action = e2.action

/-- The boolean conflict check implies the propositional one. -/
theorem conflictFree_of_b (batch : List UpdateEntry)
    (h : conflictFreeB batch = true) : ConflictFree batch := by
  intro e1 h1 e2 h2 hu
  unfold conflictFreeB at h
  rw [List.all_eq_true] at h
  have h3 := h e1 h1
  rw [List.all_eq_true] at h3
  have h4 := h3 e2 h2
  simp only [Bool.or_eq_true, bne_iff_ne, beq_iff_eq] at h4
  rcases h4 with h4 | h4
  · exact absurd hu h4
  · exact h4

/-- Does the list hold an entry for UID `u`, propositionally? -/
def HasUidP (l : AllowList) (u : Nat) : Prop :=
  ∃ e ∈ l, e.uid = u

/-- UID membership after a grant: the old UIDs plus the granted one. -/
theorem hasUidP_upsertGrant (fp v u : Nat) (l : AllowList) :
    HasUidP (upsertGrant fp v l) u ↔ (HasUidP l u ∨ v = u) := by
  constructor
  · rintro ⟨x, hx, hxu⟩
    rcases mem_upsertGrant fp v l x hx with h | h
    · exact Or.inl ⟨x, h, hxu⟩
    · exact Or.inr (by rw [← h.1]; exact hxu)
  · intro h
    rcases h with ⟨e, he, heu⟩ | hvu
    · unfold upsertGrant
      by_cases hany : (l.any fun e => e.uid == v) = true
      · rw [if_pos hany]
        refine ⟨(fun e =>
            if e.uid == v then
              ({ uid := e.uid, allow := true, grantFp := fp,
                 suspect := false, persist := e.persist } : UidEntry)
            else e) e, List.mem_map_of_mem _ he, ?_⟩
        dsimp only
        split <;> simpa using heu
      · rw [if_neg hany]
        exact ⟨e, List.mem_append_left _ he, heu⟩
    · subst hvu
      obtain ⟨e2, hf, _, _⟩ := find?_upsertGrant fp v l
      have hp := List.find?_some hf
      exact ⟨e2, List.mem_of_find?_eq_some hf, beq_iff_eq.mp hp⟩

/-- UID membership after a revoke: the old UIDs minus the revoked one. -/
theorem hasUidP_removeUid (v u : Nat) (l : AllowList) :
    HasUidP (l.filter fun x => x.uid != v) u ↔ (HasUidP l u ∧ v ≠ u) := by
  constructor
  · rintro ⟨x, hx, hxu⟩
    have hm := List.mem_filter.mp hx
    refine ⟨⟨x, hm.1, hxu⟩, ?_⟩
    have hne : x.uid ≠ v := bne_iff_ne.mp hm.2
    intro hc
    exact hne (hxu.trans hc.symm)
  · rintro ⟨⟨x, hx, hxu⟩, hvu⟩
    refine ⟨x, List.mem_filter.mpr ⟨hx, bne_iff_ne.mpr ?_⟩, hxu⟩
    intro hc
    exact hvu (hc.symm.trans hxu)

/-- `grantsB` over a cons, definitionally. -/
theorem grantsB_cons (v : Nat) (act : UpdateAction) (rest : List UpdateEntry)
    (u : Nat) :
    grantsB (⟨v, act⟩ :: rest) u
      = ((v == u && act == UpdateAction.grant) || grantsB rest u) := rfl

/-- `revokesB` over a cons, definitionally. -/
theorem revokesB_cons (v : Nat) (act : UpdateAction) (rest : List UpdateEntry)
    (u : Nat) :
    revokesB (⟨v, act⟩ :: rest) u
      = ((v == u && act == UpdateAction.revoke) || revokesB rest u) := rfl

/-- UID membership after applying a conflict-free batch: a UID is present
exactly when the batch grants it, or it was present and the batch does not
revoke it. -/
theorem hasUidP_applyEntries (fp : Nat) :
    ∀ (batch : List UpdateEntry) (l : AllowList) (u : Nat),
    ConflictFree batch →
    (HasUidP (applyEntries fp batch l) u ↔
      (grantsB batch u = true ∨ (HasUidP l u ∧ revokesB batch u = false))) := by
  intro batch
  induction batch with
  | nil =>
    intro l u _
    simp [applyEntries, grantsB, revokesB, HasUidP]
  | cons op rest ih =>
    intro l u hcf
    have hcf2 : ConflictFree rest := fun e1 h1 e2 h2 =>
      hcf e1 (List.mem_cons_of_mem _ h1) e2 (List.mem_cons_of_mem _ h2)
    have hstep : applyEntries fp (op :: rest) l
        = applyEntries fp rest (applyOne fp l op) := rfl
    rw [hstep, ih (applyOne fp l op) u hcf2]
    obtain ⟨v, act⟩ := op
    cases act with
    | grant =>
      by_cases hvu : v = u
      · subst hvu
        have hrev : revokesB rest v = false := by
          by_contra hc
          rw [Bool.not_eq_false] at hc
          unfold revokesB at hc
          rw [List.any_eq_true] at hc
          obtain ⟨e, he, hep⟩ := hc
          simp only [Bool.and_eq_true, beq_iff_eq] at hep
          have hcc := hcf ⟨v, UpdateAction.grant⟩ (List.mem_cons_self _ _) e
            (List.mem_cons_of_mem _ he) (by simpa using hep.1.symm)
          rw [hep.2] at hcc
          simp at hcc
        have hup : HasUidP (upsertGrant fp v l) v :=
          (hasUidP_upsertGrant fp v v l).mpr (Or.inr rfl)
        constructor
        · intro _
          exact Or.inl (by rw [grantsB_cons]; simp)
        · intro _
          exact Or.inr ⟨hup, hrev⟩
      · have hgc : grantsB (⟨v, UpdateAction.grant⟩ :: rest) u
            = grantsB rest u := by
          rw [grantsB_cons]
          simp [hvu]
        have hrc : revokesB (⟨v, UpdateAction.grant⟩ :: rest) u
            = revokesB rest u := by
          rw [revokesB_cons]
          simp
        rw [hgc, hrc]
        have hiff := hasUidP_upsertGrant fp v u l
        constructor
        · rintro (h | ⟨hh, hr⟩)
          · exact Or.inl h
          · rcases hiff.mp hh with h2 | h2
            · exact Or.inr ⟨h2, hr⟩
            · exact absurd h2 hvu
        · rintro (h | ⟨hh, hr⟩)
          · exact Or.inl h
          · exact Or.inr ⟨hiff.mpr (Or.inl hh), hr⟩
    | revoke =>
      by_cases hvu : v = u
      · subst hvu
        have hgr : grantsB rest v = false := by
          by_contra hc
          rw [Bool.not_eq_false] at hc
          unfold grantsB at hc
          rw [List.any_eq_true] at hc
          obtain ⟨e, he, hep⟩ := hc
          simp only [Bool.and_eq_true, beq_iff_eq] at hep
          have hcc := hcf ⟨v, UpdateAction.revoke⟩ (List.mem_cons_self _ _) e
            (List.mem_cons_of_mem _ he) (by simpa using hep.1.symm)
          rw [hep.2] at hcc
          simp at hcc
        have hgc : grantsB (⟨v, UpdateAction.revoke⟩ :: rest) v = false := by
          rw [grantsB_cons]
          simp [hgr]
        have hrc : revokesB (⟨v, UpdateAction.revoke⟩ :: rest) v = true := by
          rw [revokesB_cons]
          simp
        rw [hgc, hrc]
        have hrem := hasUidP_removeUid v v l
        constructor
        · rintro (h | ⟨hh, hr⟩)
          · exact absurd h (by simp [hgr])
          · exact absurd rfl (hrem.mp hh).2
        · rintro (h | ⟨hh, hr⟩)
          · simp at h
          · simp at hr
      · have hgc : grantsB (⟨v, UpdateAction.revoke⟩ :: rest) u
            = grantsB rest u := by
          rw [grantsB_cons]
          simp
        have hrc : revokesB (⟨v, UpdateAction.revoke⟩ :: rest) u
            = revokesB rest u := by
          rw [revokesB_cons]
          simp [hvu]
        rw [hgc, hrc]
        have hrem := hasUidP_removeUid v u l
        constructor
        · rintro (h | ⟨hh, hr⟩)
          · exact Or.inl h
          · exact Or.inr ⟨(hrem.mp hh).1, hr⟩
        · rintro (h | ⟨hh, hr⟩)
          · exact Or.inl h
          · exact Or.inr ⟨hrem.mpr ⟨hh, hvu⟩, hr⟩

/-- A grant preserves distinctness of the allow-list keys. -/
theorem nodup_upsertGrant (fp v : Nat) (l : AllowList)
    (h : (l.map fun e => e.uid).Nodup) :
    ((upsertGrant fp v l).map fun e => e.uid).Nodup := by
  unfold upsertGrant
  by_cases hany : (l.any fun e => e.uid == v) = true
  · rw [if_pos hany, List.map_map]
    have hmc : l.map ((fun e => e.uid) ∘ (fun e =>
        if e.uid == v then
          ({ uid := e.uid, allow := true, grantFp := fp,
             suspect := false, persist := e.persist } : UidEntry)
        else e)) = l.map fun e => e.uid := by
      apply List.map_congr_left
      intro a _
      simp only [Function.comp]
      split <;> rfl
    rw [hmc]
    exact h
  · rw [if_neg hany, List.map_append]
    apply List.Nodup.append h (by simp)
    intro a ha hb
    simp only [List.map_cons, List.map_nil, List.mem_singleton] at hb
    subst hb
    obtain ⟨e, he, heq⟩ := List.mem_map.mp ha
    exact hany (List.any_eq_true.mpr ⟨e, he, beq_iff_eq.mpr heq⟩)

/-- A revoke preserves distinctness of the allow-list keys. -/
theorem nodup_removeUid (v : Nat) (l : AllowList)
    (h : (l.map fun e => e.uid).Nodup) :
    ((l.filter fun x => x.uid != v).map fun e => e.uid).Nodup :=
  List.Nodup.sublist (List.Sublist.map _ (List.filter_sublist l)) h

/-- Applying a batch preserves distinctness of the allow-list keys. -/
theorem nodup_applyEntries (fp : Nat) :
    ∀ (batch : List UpdateEntry) (l : AllowList),
    (l.map fun e => e.uid).Nodup →
    ((applyEntries fp batch l).map fun e => e.uid).Nodup := by
  intro batch
  induction batch with
  | nil => intro l h; exact h
  | cons op rest ih =>
    intro l h
    show ((applyEntries fp rest (applyOne fp l op)).map fun e => e.uid).Nodup
    apply ih
    obtain ⟨v, act⟩ := op
    cases act with
    | grant => exact nodup_upsertGrant fp v l h
    | revoke => exact nodup_removeUid v l h

/-- `uidFinset` membership is propositional UID membership. -/
theorem mem_uidFinset (l : AllowList) (u : Nat) :
    u ∈ uidFinset l ↔ HasUidP l u := by
  unfold uidFinset HasUidP
  rw [List.mem_toFinset, List.mem_map]

/-- `grantedUids` membership matches `grantsB`. -/
theorem mem_grantedUids (batch : List UpdateEntry) (u : Nat) :
    u ∈ grantedUids batch ↔ grantsB batch u = true := by
  unfold grantedUids grantsB
  rw [List.mem_toFinset, List.mem_map, List.any_eq_true]
  constructor
  · rintro ⟨e, he, heq⟩
    have hm := List.mem_filter.mp he
    refine ⟨e, hm.1, ?_⟩
    have h2 := hm.2
    simp only [Bool.and_eq_true, beq_iff_eq]
    exact ⟨heq, beq_iff_eq.mp h2⟩
  · rintro ⟨e, he, hep⟩
    simp only [Bool.and_eq_true, beq_iff_eq] at hep
    exact ⟨e, List.mem_filter.mpr ⟨he, beq_iff_eq.mpr hep.2⟩, hep.1⟩

/-- `revokedUids` membership matches `revokesB`. -/
theorem mem_revokedUids (batch : List UpdateEntry) (u : Nat) :
    u ∈ revokedUids batch ↔ revokesB batch u = true := by
  unfold revokedUids revokesB
  rw [List.mem_toFinset, List.mem_map, List.any_eq_true]
  constructor
  · rintro ⟨e, he, heq⟩
    have hm := List.mem_filter.mp he
    refine ⟨e, hm.1, ?_⟩
    have h2 := hm.2
    simp only [Bool.and_eq_true, beq_iff_eq]
    exact ⟨heq, beq_iff_eq.mp h2⟩
  · rintro ⟨e, he, hep⟩
    simp only [Bool.and_eq_true, beq_iff_eq] at hep
    exact ⟨e, List.mem_filter.mpr ⟨he, beq_iff_eq.mpr hep.2⟩, hep.1⟩

/-- The UID set after a conflict-free batch: granted UIDs together with the
old UIDs that were not revoked. -/
theorem uidFinset_applyEntries (fp : Nat) (batch : List UpdateEntry)
    (l : AllowList) (hcf : ConflictFree batch) :
    uidFinset (applyEntries fp batch l)
      = grantedUids batch ∪ (uidFinset l \ revokedUids batch) := by
  ext u
  rw [mem_uidFinset, hasUidP_applyEntries fp batch l u hcf, Finset.mem_union,
    Finset.mem_sdiff, mem_grantedUids, mem_uidFinset, mem_revokedUids]
  constructor
  · rintro (h | ⟨hh, hr⟩)
    · exact Or.inl h
    · exact Or.inr ⟨hh, by simp [hr]⟩
  · rintro (h | ⟨hh, hr⟩)
    · exact Or.inl h
    · exact Or.inr ⟨hh, by simpa using hr⟩

/-- A conflict-free batch grants and revokes disjoint UID sets. -/
theorem granted_revoked_disjoint (batch : List UpdateEntry)
    (hcf : ConflictFree batch) :
    Disjoint (grantedUids batch) (revokedUids batch) := by
  rw [Finset.disjoint_left]
  intro u hg hr
  rw [mem_grantedUids] at hg
  rw [mem_revokedUids] at hr
  unfold grantsB at hg
  unfold revokesB at hr
  rw [List.any_eq_true] at hg hr
  obtain ⟨e1, h1, hp1⟩ := hg
  obtain ⟨e2, h2, hp2⟩ := hr
  simp only [Bool.and_eq_true, beq_iff_eq] at hp1 hp2
  have hcc := hcf e1 h1 e2 h2 (hp1.1.trans hp2.1.symm)
  rw [hp1.2, hp2.2] at hcc
  simp at hcc

/-- Cardinality bookkeeping for the granted/old/revoked UID sets. -/
theorem card_union_sdiff (G R B : Finset Nat) (hd : Disjoint G R) :
    (G ∪ (B \ R)).card + (R ∩ B).card = B.card + (G \ B).card := by
  have h1 : G ∪ (B \ R) = (G \ B) ∪ (B \ R) := by
    ext u
    simp only [Finset.mem_union, Finset.mem_sdiff]
    constructor
    · rintro (h | h)
      · by_cases hb : u ∈ B
        · exact Or.inr ⟨hb, fun hr => (Finset.disjoint_left.mp hd h) hr⟩
        · exact Or.inl ⟨h, hb⟩
      · exact Or.inr h
    · rintro (h | h)
      · exact Or.inl h.1
      · exact Or.inr h
  have h2 : Disjoint (G \ B) (B \ R) := by
    rw [Finset.disjoint_left]
    rintro u hu hv
    rw [Finset.mem_sdiff] at hu hv
    exact hu.2 hv.1
  have h3 : B \ R = B \ (R ∩ B) := by
    ext u
    simp only [Finset.mem_sdiff, Finset.mem_inter]
    tauto
  have h4 : (R ∩ B) ⊆ B := Finset.inter_subset_right
  have h5 : (R ∩ B).card ≤ B.card := Finset.card_le_card h4
  rw [h1, Finset.card_union_of_disjoint h2, h3, Finset.card_sdiff h4]
  omega

/-- A key-distinct allow list has as many entries as distinct UIDs. -/
theorem length_eq_card_uidFinset (l : AllowList)
    (h : (l.map fun e => e.uid).Nodup) :
    l.length = (uidFinset l).card := by
  unfold uidFinset
  rw [List.toFinset_card_of_nodup h, List.length_map]

/-- Claim C3 counterexample: a successful batch that merely refreshes an
already-present grant leaves the AllowList size unchanged although the net
grant/revoke count of the batch is one, so the size does not differ from
the prior size by the net count. -/
theorem net_count_counterexample :
    apply_update 7 [⟨100, UpdateAction.grant⟩]
        ⟨1000, 500, 7, Validity.valid, 3⟩ [⟨100, true, 7, false, false⟩]
      = Except.ok ([⟨100, true, 7, false, false⟩], 1)
    ∧ netCount [⟨100, UpdateAction.grant⟩] = 1
    ∧ (([⟨100, true, 7, false, false⟩] : AllowList).length : Int)
        ≠ (([⟨100, true, 7, false, false⟩] : AllowList).length : Int)
          + netCount [⟨100, UpdateAction.grant⟩] := by
  refine ⟨rfl, rfl, by decide⟩

/-- Claim C3 (amended): a successful `apply_update` batch is applied
atomically, the returned value is the resulting list size, every entry for
a granted UID is stamped with the current throne fingerprint, and the size
changes by exactly the effective net count of the batch: the number of
distinct granted UIDs not already present minus the number of distinct
revoked UIDs that were present. -/
theorem apply_update_success_size (fp : Nat) (batch : List UpdateEntry)
    (th : ThroneState) (l l2 : AllowList) (n : Nat)
    (hnd : (l.map fun e => e.uid).Nodup)
    (h : apply_update fp batch th l = Except.ok (l2, n)) :
    n = l2.length
    ∧ (∀ x ∈ l2, grantsB batch x.uid = true →
        x.grantFp = th.fingerprint ∧ x.allow = true ∧ x.suspect = false)
    ∧ l2.length + (revokedUids batch ∩ uidFinset l).card
        = l.length + (grantedUids batch \ uidFinset l).card := by
  obtain ⟨hv, hfp, hwf, hl2, hn⟩ := apply_update_ok_inv fp batch th l l2 n h
  have hcf : ConflictFree batch := by
    apply conflictFree_of_b
    unfold batchWellFormed at hwf
    rw [Bool.and_eq_true] at hwf
    exact hwf.2
  refine ⟨hn, ?_, ?_⟩
  · intro x hx hg
    exact applyEntries_stamps_grants th.fingerprint batch l x.uid hg x
      (hl2 ▸ hx) rfl
  · subst hl2
    have hnd2 := nodup_applyEntries th.fingerprint batch l hnd
    rw [length_eq_card_uidFinset _ hnd2, length_eq_card_uidFinset l hnd,
      uidFinset_applyEntries th.fingerprint batch l hcf]
    exact card_union_sdiff (grantedUids batch) (revokedUids batch)
      (uidFinset l) (granted_revoked_disjoint batch hcf)

/-- Witness for C3 (amended) on a concrete batch granting fresh UID 300,
revoking present UID 200 and refreshing present UID 100. -/
theorem apply_update_success_size_witness :
    ((2 : Nat)
        = ([⟨100, true, 7, false, false⟩, ⟨300, true, 7, false, false⟩] :
            AllowList).length)
    ∧ (([⟨100, true, 7, false, false⟩, ⟨300, true, 7, false, false⟩] :
            AllowList).length
        + (revokedUids [⟨300, UpdateAction.grant⟩, ⟨200, UpdateAction.revoke⟩,
              ⟨100, UpdateAction.grant⟩]
            ∩ uidFinset [⟨100, true, 7, false, false⟩,
              ⟨200, true, 7, false, false⟩]).card
        = ([⟨100, true, 7, false, false⟩, ⟨200, true, 7, false, false⟩] :
            AllowList).length
          + (grantedUids [⟨300, UpdateAction.grant⟩, ⟨200, UpdateAction.revoke⟩,
                ⟨100, UpdateAction.grant⟩]
              \ uidFinset [⟨100, true, 7, false, false⟩,
                ⟨200, true, 7, false, false⟩]).card) :=
  ⟨(apply_update_success_size 7
      [⟨300, UpdateAction.grant⟩, ⟨200, UpdateAction.revoke⟩,
        ⟨100, UpdateAction.grant⟩]
      ⟨1000, 500, 7, Validity.valid, 3⟩
      [⟨100, true, 7, false, false⟩, ⟨200, true, 7, false, false⟩]
      [⟨100, true, 7, false, false⟩, ⟨300, true, 7, false, false⟩] 2
      (by decide) rfl).1,
   (apply_update_success_size 7
      [⟨300, UpdateAction.grant⟩, ⟨200, UpdateAction.revoke⟩,
        ⟨100, UpdateAction.grant⟩]
      ⟨1000, 500, 7, Validity.valid, 3⟩
      [⟨100, true, 7, false, false⟩, ⟨200, true, 7, false, false⟩]
      [⟨100, true, 7, false, false⟩, ⟨300, true, 7, false, false⟩] 2
      (by decide) rfl).2.2⟩
